import Mathlib

/-!
Shallow embedding of the streaming speech pipeline of the zoom_rtms repository.

Python floats are modelled as exact rationals, numpy float32/int16 arrays as
Lean lists, and Python lists of word tuples as lists of `TimedWord`.  Each
definition is a direct translation of the corresponding function in
`src/hypothesis_buffer.py`, `src/speech_processor.py` and `src/audio_buffer.py`;
while-loops become fuel/structural recursions with the fuel chosen so that the
recursion covers exactly the iterations the Python loop performs.
-/

/-- A transcribed word `(start, end, text)` as stored in the hypothesis buffer
(`src/hypothesis_buffer.py`, tuples `Tuple[float, float, str]`). -/
structure TimedWord where
  start_sec : ℚ
  end_sec : ℚ
  text : String
  deriving DecidableEq, Repr

/-- A committed word together with its speaker, as stored by
`SharedConversationContext.all_committed_words`. -/
structure AttrWord where
  start_sec : ℚ
  end_sec : ℚ
  text : String
  speaker : Option String
  deriving DecidableEq, Repr

/-- Python's `\w` character class restricted to ASCII: letters, digits, underscore. -/
def pyIsWordChar (c : Char) : Bool := c.isAlphanum || c = '_'

/-- Python's `str.strip()`: remove leading and trailing whitespace. -/
def pyStrip (s : String) : String :=
  String.mk (((s.toList.dropWhile Char.isWhitespace).reverse.dropWhile
    Char.isWhitespace).reverse)

/-- `normalize_word` from `src/hypothesis_buffer.py`:
`re.sub(r'[^\w\s]', '', word).lower().strip()` — remove every character that is
neither a word character nor whitespace, lowercase, and strip. -/
def normalize_word (w : String) : String :=
  pyStrip (String.mk ((w.toList.filter fun c => pyIsWordChar c || c.isWhitespace).map
    Char.toLower))

/-- State of `HypothesisBuffer` (`src/hypothesis_buffer.py`): committed history,
previous-generation words awaiting confirmation, latest inserted words, and the
time of the last commit. -/
structure HypothesisBuffer where
  commited_in_buffer : List TimedWord
  buffer : List TimedWord
  new : List TimedWord
  last_commited_time : ℚ
  deriving DecidableEq, Repr

/-- `HypothesisBuffer.__init__`: all lists empty, `last_commited_time = 0.0`. -/
def HypothesisBuffer.initState : HypothesisBuffer :=
  { commited_in_buffer := [], buffer := [], new := [], last_commited_time := 0 }

/-- The list comprehension shifting each word by `offset`
(`self.new = [(term['start'] + offset, term['end'] + offset, term['text']) ...]`). -/
def shiftWords (ws : List TimedWord) (offset : ℚ) : List TimedWord :=
  ws.map fun w => { w with start_sec := w.start_sec + offset, end_sec := w.end_sec + offset }

/-- The drop filter of `insert`
(`self.new = [(a, b, w) for a, b, w in self.new if a > self.last_commited_time - 0.1]`). -/
def dropOldWords (lct : ℚ) (ws : List TimedWord) : List TimedWord :=
  ws.filter fun w => decide (lct - 1/10 < w.start_sec)

/-- The last `i` committed words in chronological order:
`[self.commited_in_buffer[-j][2] for j in range(1, i + 1)][::-1]`. -/
def lastChrono (l : List TimedWord) (i : ℕ) : List TimedWord :=
  (l.reverse.take i).reverse

/-- Space-joined normalized texts, as built on both sides of the n-gram comparison. -/
def ngramJoin (ws : List TimedWord) : String :=
  String.intercalate " " (ws.map fun w => normalize_word w.text)

/-- One n-gram comparison of `insert`: last-`i` committed words against first-`i`
new words, both normalized and space-joined. -/
def ngramMatch (committed ws : List TimedWord) (i : ℕ) : Bool :=
  decide (ngramJoin (lastChrono committed i) = ngramJoin (ws.take i))

/-- The dedup loop of `insert`:
`for i in range(1, min(min(cn, nn), 5) + 1): ... if c == tail: pop i words; break`.
`i` is the current loop index, the second argument the number of iterations left
(the loop runs while `i ≤ K`); on the first match `i` words are removed from the
front of `ws` and the loop stops. -/
def dedupGo (committed ws : List TimedWord) (i : ℕ) : ℕ → List TimedWord
  | 0 => ws
  | rem + 1 =>
    if ngramMatch committed ws i then ws.drop i
    else dedupGo committed ws (i + 1) rem

/-- Body of `HypothesisBuffer.insert` after the shift, acting on the already
filtered word list: if the first surviving word starts within 1 s of
`last_commited_time` and there is committed history, run the n-gram dedup loop
with `K = min(min(cn, nn), 5)`. -/
def insertCore (committed : List TimedWord) (lct : ℚ) (filtered : List TimedWord) :
    List TimedWord :=
  match filtered with
  | [] => filtered
  | w :: _ =>
    if |w.start_sec - lct| < 1 then
      if committed ≠ [] then
        dedupGo committed filtered 1 (min (min committed.length filtered.length) 5)
      else filtered
    else filtered

/-- `HypothesisBuffer.insert(new, offset)` (`src/hypothesis_buffer.py` lines 43-78):
shift by `offset`, drop words with `start ≤ last_commited_time - 0.1`, then
n-gram dedup against the committed tail.  Only `self.new` is mutated. -/
def HypothesisBuffer.insert (hb : HypothesisBuffer) (ws : List TimedWord) (offset : ℚ) :
    HypothesisBuffer :=
  { hb with
    new := insertCore hb.commited_in_buffer hb.last_commited_time
      (dropOldWords hb.last_commited_time (shiftWords ws offset)) }

/-- The `while self.new:` loop of `flush`, threading (`new`, `buffer`,
`last_commited_time`).  Returns the commit list, the remaining `new`, the
remaining `buffer` and the final `last_commited_time`. -/
def flushWhile : List TimedWord → List TimedWord → ℚ →
    List TimedWord × List TimedWord × List TimedWord × ℚ
  | [], bufL, lct => ([], [], bufL, lct)
  | n :: ns, [], lct => ([], n :: ns, [], lct)
  | n :: ns, b :: bs, lct =>
    if normalize_word n.text = normalize_word b.text then
      let r := flushWhile ns bs n.end_sec
      (n :: r.1, r.2.1, r.2.2.1, r.2.2.2)
    else ([], n :: ns, b :: bs, lct)

/-- `HypothesisBuffer.flush()` (`src/hypothesis_buffer.py` lines 80-111): run the
LCP loop, then `self.buffer = self.new; self.new = []`, extend
`commited_in_buffer` with the commits, and return the commits. -/
def HypothesisBuffer.flush (hb : HypothesisBuffer) : HypothesisBuffer × List TimedWord :=
  let r := flushWhile hb.new hb.buffer hb.last_commited_time
  ({ commited_in_buffer := hb.commited_in_buffer ++ r.1,
     buffer := r.2.1,
     new := [],
     last_commited_time := r.2.2.2 }, r.1)

/-- The `while self.commited_in_buffer and self.commited_in_buffer[0][1] <= time:` loop of
`pop_commited`: returns (removed, remaining). -/
def popLoop : List TimedWord → ℚ → List TimedWord × List TimedWord
  | [], _ => ([], [])
  | w :: ws, t =>
    if w.end_sec ≤ t then
      let r := popLoop ws t
      (w :: r.1, r.2)
    else ([], w :: ws)

/-- `HypothesisBuffer.pop_commited(time)`: remove and return the committed words
ending at or before `time`. -/
def HypothesisBuffer.pop_commited (hb : HypothesisBuffer) (t : ℚ) :
    HypothesisBuffer × List TimedWord :=
  let r := popLoop hb.commited_in_buffer t
  ({ hb with commited_in_buffer := r.2 }, r.1)

/-- `HypothesisBuffer.complete()`: return `buffer` unchanged. -/
def HypothesisBuffer.complete (hb : HypothesisBuffer) : List TimedWord :=
  hb.buffer

/-- Python's negative-index tail slice `l[-n:]`.  Note `l[-0:]` is `l[0:]`,
i.e. the whole list — the slice only truncates for `n ≥ 1`. -/
def pySliceLast {α : Type} (l : List α) (n : ℕ) : List α :=
  if n = 0 then l else l.drop (l.length - n)

/-- Python `int()` applied to an exact rational: truncation toward zero. -/
def pyInt (q : ℚ) : ℤ := Int.tdiv q.num q.den

/-- State of `SharedConversationContext` (`src/speech_processor.py` lines 30-53). -/
structure SharedConversationContext where
  history_size : ℕ
  all_committed_words : List AttrWord
  recog_sent_history : List String
  deriving DecidableEq, Repr

/-- `SharedConversationContext.__init__(history_size)`. -/
def SharedConversationContext.initState (hs : ℕ) : SharedConversationContext :=
  { history_size := hs, all_committed_words := [], recog_sent_history := [] }

/-- `SharedConversationContext.add_committed_words(words, speaker_id)`
(`src/speech_processor.py` lines 55-95).  The sentence-splitting regex
`re.split(r'(?<!\w\.\w.)(?<![A-Z][a-z]\.)(?<=\.|\?)\s', text)` is abstracted as
the function argument `split`; every property proved below holds for an
arbitrary splitter.  Python's `list.sort(key=...)` is a stable sort, modelled by
`List.mergeSort`; `self.recog_sent_history[-self.history_size:]` is modelled by
`pySliceLast` (including the `[-0:]` no-op). -/
def SharedConversationContext.add_committed_words (split : String → List String)
    (ctx : SharedConversationContext) (words : List TimedWord)
    (speaker : Option String) : SharedConversationContext :=
  if words = [] then ctx
  else
    let appended := ctx.all_committed_words ++
      words.map fun w => { start_sec := w.start_sec, end_sec := w.end_sec,
                           text := w.text, speaker := speaker }
    let sorted := appended.mergeSort fun a b => decide (a.start_sec ≤ b.start_sec)
    let committed_text := String.intercalate " " (words.map fun w => w.text)
    let hist :=
      if pyStrip committed_text ≠ "" then
        let h := ctx.recog_sent_history ++ split (pyStrip committed_text)
        if ctx.history_size < h.length then pySliceLast h ctx.history_size else h
      else ctx.recog_sent_history
    { ctx with all_committed_words := sorted, recog_sent_history := hist }

/-- `SharedConversationContext.build_prompt(before_time)`: join the texts of all
committed words with `end_time <= before_time`. -/
def SharedConversationContext.build_prompt (ctx : SharedConversationContext)
    (before_time : ℚ) : String :=
  String.intercalate " "
    ((ctx.all_committed_words.filter fun w => decide (w.end_sec ≤ before_time)).map
      fun w => w.text)

/-- One recognizer segment: word list and no-speech probability
(response shape consumed by `SpeechProcessor._process_asr`). -/
structure RecognizerSegment where
  words : List TimedWord
  no_speech_prob : ℚ
  deriving DecidableEq, Repr

/-- A recognizer response: a list of segments. -/
structure ASRResponse where
  segments : List RecognizerSegment
  deriving DecidableEq, Repr

/-- Modelled from the spec: the remote-HTTP recognizer adapter used by
`SpeechProcessor._process_asr` is not present under `src/` — `_process_asr`
calls `asr_client.transcribe(audio=..., prompt=..., recog_sent_history=...,
speaker_id=...)` expecting a response with `.segments`, and `main.py` constructs
`ASRClient(url=..., timeout_seconds=...)`, but the only `src/asr_client.py` in
the tree is an incompatible fire-and-forget WebSocket client
(`transcribe(self, audio_chunk) -> None`).  Per spec §6/§7 the adapter returns
the parsed segment list on success, and on HTTP error, timeout or connect
failure it returns an empty response. -/
inductive RecognizerOutcome where
  | success (segments : List RecognizerSegment)
  | failure
  deriving DecidableEq, Repr

/-- Modelled from the spec: result delivered to `_process_asr` by the missing
recognizer adapter, with every failure mapped to the empty response. -/
def transcribeAdapter : RecognizerOutcome → ASRResponse
  | RecognizerOutcome.success segs => { segments := segs }
  | RecognizerOutcome.failure => { segments := [] }

/-- The empty recognizer response. -/
def emptyResponse : ASRResponse := { segments := [] }

/-- `SAMPLING_RATE = 16000` (`SpeechProcessor`). -/
def SAMPLING_RATE : ℕ := 16000

/-- `WHISPER_MAX_AUDIO_SEC = 30.0` (`SpeechProcessor`). -/
def WHISPER_MAX_AUDIO_SEC : ℚ := 30

/-- Per-speaker state of `SpeechProcessor` (`src/speech_processor.py` lines
130-163).  The shared conversation context is kept outside this record (its
update is modelled by `SharedConversationContext.add_committed_words`); audio
samples are exact rationals. -/
structure SpeechProcessor where
  stride_sec : ℚ
  silence_timeout_sec : ℚ
  pre_speech_buffer_sec : ℚ
  buffer_trimming_sec : ℚ
  audio_buffer : List ℚ
  buffer_time_offset : ℚ
  hypothesis_buffer : HypothesisBuffer
  committed_words : List TimedWord
  in_speech : Bool
  last_speech_time : Option ℚ
  last_asr_time : Option ℚ
  pre_speech_buffer : List (List ℚ)
  deriving DecidableEq, Repr

/-- `SpeechProcessor.__init__` with the given parameters:
`buffer_trimming_sec = WHISPER_MAX_AUDIO_SEC - stride_sec`, empty buffers,
not in speech. -/
def SpeechProcessor.initState (stride silence pre : ℚ) : SpeechProcessor :=
  { stride_sec := stride, silence_timeout_sec := silence,
    pre_speech_buffer_sec := pre,
    buffer_trimming_sec := WHISPER_MAX_AUDIO_SEC - stride,
    audio_buffer := [], buffer_time_offset := 0,
    hypothesis_buffer := HypothesisBuffer.initState,
    committed_words := [], in_speech := false,
    last_speech_time := none, last_asr_time := none,
    pre_speech_buffer := [] }

/-- `len(self.audio_buffer) / self.SAMPLING_RATE` in seconds. -/
def chunkDur (sp : SpeechProcessor) : ℚ :=
  (sp.audio_buffer.length : ℚ) / (SAMPLING_RATE : ℚ)

/-- `SpeechProcessor._trim_buffer_at_committed_word(current_time)`
(`src/speech_processor.py` lines 360-391): pick the newest committed word ending
at or before `buffer_time_offset + buffer_duration / 2`; if it ends after the
current offset, cut the corresponding samples from the front of the audio
buffer, advance the offset and drop the hypothesis history up to it. -/
def trimBufferAtCommittedWord (sp : SpeechProcessor) : SpeechProcessor :=
  if sp.committed_words = [] then sp
  else
    let buffer_duration := (sp.audio_buffer.length : ℚ) / (SAMPLING_RATE : ℚ)
    let target_trim_time := sp.buffer_time_offset + buffer_duration / 2
    match sp.committed_words.reverse.find? (fun w => decide (w.end_sec ≤ target_trim_time)) with
    | none => sp
    | some w =>
      let trim_time := w.end_sec
      if trim_time ≤ sp.buffer_time_offset then sp
      else
        let cut_seconds := trim_time - sp.buffer_time_offset
        if 0 < cut_seconds then
          let cut_samples := (pyInt (cut_seconds * (SAMPLING_RATE : ℚ))).toNat
          { sp with
            audio_buffer := sp.audio_buffer.drop cut_samples,
            buffer_time_offset := trim_time,
            hypothesis_buffer := (sp.hypothesis_buffer.pop_commited trim_time).1 }
        else sp

/-- Result of one `_process_asr` call: the updated per-speaker state, the newly
committed words it returns, and the audio actually passed to the recognizer
(`none` when the call returned before reaching the recognizer). -/
structure AsrStepResult where
  state : SpeechProcessor
  commits : List TimedWord
  sent : Option (List ℚ)
  deriving DecidableEq, Repr

/-- Word extraction from the recognizer response (`_process_asr` lines 310-318):
skip segments with `no_speech_prob > 0.9`; within kept segments keep words whose
stripped text is non-empty, with the stripped text. -/
def extractWords (resp : ASRResponse) : List TimedWord :=
  (resp.segments.filter fun s => !decide ((9 : ℚ)/10 < s.no_speech_prob)).flatMap
    fun s => (s.words.map fun w => { w with text := pyStrip w.text }).filter
      fun w => decide (w.text ≠ "")

/-- `SpeechProcessor._process_asr(timestamp, is_last_chunk)`
(`src/speech_processor.py` lines 258-358), with the recognizer response supplied
as an oracle argument `resp` (the adapter's output for this call; see
`transcribeAdapter`).  The shared-context prompt/history reads and writes do not
affect this record and are modelled separately. -/
def processAsr (sp : SpeechProcessor) (resp : ASRResponse) (timestamp : ℚ)
    (is_last_chunk : Bool) : AsrStepResult :=
  let chunk_dur := chunkDur sp
  if chunk_dur < sp.stride_sec ∧ is_last_chunk = false then
    { state := sp, commits := [], sent := none }
  else if chunk_dur = 0 then
    { state := sp, commits := [], sent := none }
  else
    let max_samples := (pyInt (WHISPER_MAX_AUDIO_SEC * (SAMPLING_RATE : ℚ))).toNat
    let audio_to_transcribe :=
      if WHISPER_MAX_AUDIO_SEC < chunk_dur then pySliceLast sp.audio_buffer max_samples
      else sp.audio_buffer
    let audio_offset :=
      if WHISPER_MAX_AUDIO_SEC < chunk_dur then
        sp.buffer_time_offset + (chunk_dur - WHISPER_MAX_AUDIO_SEC)
      else sp.buffer_time_offset
    let words := extractWords resp
    let hb1 := sp.hypothesis_buffer.insert words audio_offset
    let flushed := hb1.flush
    let newly_committed := flushed.2
    let sp1 := { sp with
      hypothesis_buffer := flushed.1,
      last_asr_time := some timestamp,
      committed_words :=
        if newly_committed ≠ [] then sp.committed_words ++ newly_committed
        else sp.committed_words }
    let sp2 :=
      if sp.buffer_trimming_sec < (sp1.audio_buffer.length : ℚ) / (SAMPLING_RATE : ℚ) then
        trimBufferAtCommittedWord sp1
      else sp1
    if is_last_chunk then
      let final_uncommitted := sp2.hypothesis_buffer.complete
      if final_uncommitted ≠ [] then
        { state := { sp2 with committed_words := sp2.committed_words ++ final_uncommitted },
          commits := newly_committed ++ final_uncommitted,
          sent := some audio_to_transcribe }
      else
        { state := sp2, commits := newly_committed, sent := some audio_to_transcribe }
    else
      { state := sp2, commits := newly_committed, sent := some audio_to_transcribe }

/-- `SpeechProcessor._on_speech_start(timestamp)` (lines 217-242): prepend up to
`pre_speech_buffer_sec` of buffered pre-speech audio, set the time offset,
re-create the hypothesis buffer with `last_commited_time = buffer_time_offset`,
and set `last_asr_time`. -/
def onSpeechStart (sp : SpeechProcessor) (timestamp : ℚ) : SpeechProcessor :=
  let sp := { sp with in_speech := true }
  if 0 < sp.pre_speech_buffer.length then
    let pre_speech_audio := sp.pre_speech_buffer.flatten
    let max_pre := (pyInt (sp.pre_speech_buffer_sec * (SAMPLING_RATE : ℚ))).toNat
    let pre_used :=
      if max_pre < pre_speech_audio.length then pySliceLast pre_speech_audio max_pre
      else pre_speech_audio
    let pre_dur := (pre_used.length : ℚ) / (SAMPLING_RATE : ℚ)
    { sp with
      audio_buffer := pre_used,
      buffer_time_offset := timestamp - pre_dur,
      pre_speech_buffer := [],
      hypothesis_buffer := { HypothesisBuffer.initState with
        last_commited_time := timestamp - pre_dur },
      last_asr_time := some timestamp }
  else
    { sp with
      audio_buffer := [],
      buffer_time_offset := timestamp,
      hypothesis_buffer := { HypothesisBuffer.initState with
        last_commited_time := timestamp },
      last_asr_time := some timestamp }

/-- `SpeechProcessor._on_speech_end(timestamp)` (lines 244-256): leave speech and
run a final `_process_asr` with `is_last_chunk=True`. -/
def onSpeechEnd (sp : SpeechProcessor) (resp : ASRResponse) (timestamp : ℚ) :
    SpeechProcessor × List TimedWord :=
  let r := processAsr { sp with in_speech := false } resp timestamp true
  (r.state, r.commits)

/-- `SpeechProcessor.on_vad_result(is_speech, audio_float32, timestamp)`
(lines 172-215).  `resp` is the recognizer's answer should this call trigger an
ASR request. -/
def onVadResult (sp : SpeechProcessor) (is_speech : Bool) (audio : List ℚ)
    (timestamp : ℚ) (resp : ASRResponse) : SpeechProcessor × List TimedWord :=
  if is_speech then
    let sp := { sp with last_speech_time := some timestamp }
    let sp := if sp.in_speech = false then onSpeechStart sp timestamp else sp
    let sp := { sp with audio_buffer := sp.audio_buffer ++ audio }
    match sp.last_asr_time with
    | some t =>
      if sp.stride_sec ≤ timestamp - t then
        let r := processAsr sp resp timestamp false
        (r.state, r.commits)
      else (sp, [])
    | none => (sp, [])
  else
    match sp.last_speech_time with
    | some lst =>
      if sp.in_speech then
        if sp.silence_timeout_sec ≤ timestamp - lst then onSpeechEnd sp resp timestamp
        else (sp, [])
      else ({ sp with pre_speech_buffer := sp.pre_speech_buffer ++ [audio] }, [])
    | none => ({ sp with pre_speech_buffer := sp.pre_speech_buffer ++ [audio] }, [])

/-- `samples_for_duration(duration_ms, sample_rate)` from `src/utils.py`:
`int((duration_ms / 1000) * sample_rate)`. -/
def samples_for_duration (duration_ms : ℚ) (sample_rate : ℕ) : ℤ :=
  pyInt (duration_ms / 1000 * (sample_rate : ℚ))

/-- The `while len(buffer) >= packet_samples:` emission loop shared by
`AudioBuffer._add_audio_mixed` and `AudioBuffer._add_audio_per_speaker`
(`src/audio_buffer.py` lines 141-150 and 174-183): slice `packet_samples`
samples off the front and emit them as one packet, until fewer remain.  The
first argument is recursion fuel; with `0 < ps` every iteration strictly
shortens the buffer, so fuel `buf.length` covers all iterations the Python loop
performs (for `ps = 0` the Python loop would not terminate). -/
def emitGo (ps : ℕ) : ℕ → List ℤ → List ℤ × List (List ℤ)
  | 0, buf => (buf, [])
  | fuel + 1, buf =>
    if 0 < ps ∧ ps ≤ buf.length then
      let r := emitGo ps fuel (buf.drop ps)
      (r.1, buf.take ps :: r.2)
    else (buf, [])

/-- Run the emission loop on a pending buffer: returns (remaining, packets). -/
def vadEmit (buf : List ℤ) (ps : ℕ) : List ℤ × List (List ℤ) :=
  emitGo ps buf.length buf

/-- `AudioBuffer._add_audio_mixed`: append the incoming samples to the pending
VAD buffer and emit full packets.  Returns (new pending buffer, packets emitted
by this call). -/
def addAudioMixed (vad_buffer : List ℤ) (ps : ℕ) (incoming : List ℤ) :
    List ℤ × List (List ℤ) :=
  vadEmit (vad_buffer ++ incoming) ps

/-- The pending VAD buffer of a speaker in the `speaker_buffers` map
(`dict.get` with empty default: an absent speaker gets a fresh empty
`SpeakerBuffer`). -/
def lookupBuf (m : List (String × List ℤ)) (sid : String) : List ℤ :=
  match m.find? (fun p => decide (p.1 = sid)) with
  | some p => p.2
  | none => []

/-- Store a speaker's new pending buffer in the map, creating the entry if the
speaker was unseen. -/
def updateBuf (m : List (String × List ℤ)) (sid : String) (b : List ℤ) :
    List (String × List ℤ) :=
  if m.any (fun p => decide (p.1 = sid)) then
    m.map fun p => if p.1 = sid then (p.1, b) else p
  else m ++ [(sid, b)]

/-- `AudioBuffer._add_audio_per_speaker` (`src/audio_buffer.py` lines 152-183):
get or create the speaker's buffer, append the incoming samples, and emit full
packets from that speaker's buffer. -/
def addAudioPerSpeaker (m : List (String × List ℤ)) (ps : ℕ) (incoming : List ℤ)
    (sid : String) : List (String × List ℤ) × List (List ℤ) :=
  let r := vadEmit (lookupBuf m sid ++ incoming) ps
  (updateBuf m sid r.1, r.2)

/-- A sequence of pushes into one (mixed-mode) pending buffer, starting empty,
accumulating all emitted packets. -/
def foldPackets (ps : ℕ) (pushes : List (List ℤ)) : List ℤ × List (List ℤ) :=
  pushes.foldl
    (fun acc inc =>
      let s := addAudioMixed acc.1 ps inc
      (s.1, acc.2 ++ s.2))
    ([], [])

/-- A sequence of `insert`/`flush` cycles on one `HypothesisBuffer`:
each element carries the recognizer word list and its offset.  Returns the final
buffer and the commit list of each cycle, in order. -/
def runHBTrace (hb : HypothesisBuffer) :
    List (List TimedWord × ℚ) → HypothesisBuffer × List (List TimedWord)
  | [] => (hb, [])
  | s :: rest =>
    let f := (hb.insert s.1 s.2).flush
    let r := runHBTrace f.1 rest
    (r.1, f.2 :: r.2)

/-- A sequence of `add_committed_words` calls on one shared context. -/
def runCtx (split : String → List String) (ctx : SharedConversationContext) :
    List (List TimedWord × Option String) → SharedConversationContext
  | [] => ctx
  | c :: rest => runCtx split (ctx.add_committed_words split c.1 c.2) rest

/-! ## Reference definitions written from the specification text -/

/-- Reference LCP commit list, following the spec's words for `flush()`:
"while both `buffer` and `new` are non-empty: compare normalized text of their
heads; if equal, pop head of each and append to `commit`; otherwise break". -/
def lcpCommit : List TimedWord → List TimedWord → List TimedWord
  | n :: ns, b :: bs =>
    if normalize_word n.text = normalize_word b.text then n :: lcpCommit ns bs
    else []
  | _, _ => []

/-- Reference `flush` built from the spec's words: commit the longest matching
prefix, replace `buffer` with the remaining `new`, clear `new`, extend
`commited_in_buffer`, and set `last_commited_time` to the `end_sec` of each
popped word in turn (so finally that of the last commit, if any). -/
def flushSpec (hb : HypothesisBuffer) : HypothesisBuffer × List TimedWord :=
  let commit := lcpCommit hb.new hb.buffer
  ({ commited_in_buffer := hb.commited_in_buffer ++ commit,
     buffer := hb.new.drop commit.length,
     new := [],
     last_commited_time := commit.foldl (fun _ w => w.end_sec) hb.last_commited_time },
   commit)

/-- The smallest n-gram overlap length in `1..k` accepted by the dedup
comparison, if any (reference definition for the amended dedup claim). -/
def firstNgramMatch (c f : List TimedWord) (k : ℕ) : Option ℕ :=
  (List.range' 1 k).find? fun j => ngramMatch c f j

/-! ## Helper lemmas -/

lemma flushWhile_fst (n : List TimedWord) : ∀ (b : List TimedWord) (t : ℚ),
    (flushWhile n b t).1 = lcpCommit n b := by
  induction n with
  | nil => intro b t; cases b <;> simp [flushWhile, lcpCommit]
  | cons x ns ih =>
    intro b t
    cases b with
    | nil => simp [flushWhile, lcpCommit]
    | cons y bs =>
      by_cases h : normalize_word x.text = normalize_word y.text
      · simp [flushWhile, lcpCommit, h, ih]
      · simp [flushWhile, lcpCommit, h]

lemma flushWhile_newRem (n : List TimedWord) : ∀ (b : List TimedWord) (t : ℚ),
    (flushWhile n b t).2.1 = n.drop (lcpCommit n b).length := by
  induction n with
  | nil => intro b t; cases b <;> simp [flushWhile, lcpCommit]
  | cons x ns ih =>
    intro b t
    cases b with
    | nil => simp [flushWhile, lcpCommit]
    | cons y bs =>
      by_cases h : normalize_word x.text = normalize_word y.text
      · simp [flushWhile, lcpCommit, h, ih]
      · simp [flushWhile, lcpCommit, h]

lemma flushWhile_lct (n : List TimedWord) : ∀ (b : List TimedWord) (t : ℚ),
    (flushWhile n b t).2.2.2 = (lcpCommit n b).foldl (fun _ w => w.end_sec) t := by
  induction n with
  | nil => intro b t; cases b <;> simp [flushWhile, lcpCommit]
  | cons x ns ih =>
    intro b t
    cases b with
    | nil => simp [flushWhile, lcpCommit]
    | cons y bs =>
      by_cases h : normalize_word x.text = normalize_word y.text
      · simp [flushWhile, lcpCommit, h, ih]
      · simp [flushWhile, lcpCommit, h]

lemma flushWhile_bufRem (n : List TimedWord) : ∀ (b : List TimedWord) (t : ℚ),
    (flushWhile n b t).2.2.1 = b.drop (lcpCommit n b).length := by
  induction n with
  | nil => intro b t; cases b <;> simp [flushWhile, lcpCommit]
  | cons x ns ih =>
    intro b t
    cases b with
    | nil => simp [flushWhile, lcpCommit]
    | cons y bs =>
      by_cases h : normalize_word x.text = normalize_word y.text
      · simp [flushWhile, lcpCommit, h, ih]
      · simp [flushWhile, lcpCommit, h]

lemma lcpCommit_sublist (n : List TimedWord) : ∀ (b : List TimedWord),
    (lcpCommit n b).Sublist n := by
  induction n with
  | nil => intro b; cases b <;> simp [lcpCommit]
  | cons x ns ih =>
    intro b
    cases b with
    | nil => simp [lcpCommit]
    | cons y bs =>
      by_cases h : normalize_word x.text = normalize_word y.text
      · simpa [lcpCommit, h] using (ih bs).cons₂ x
      · simp [lcpCommit, h]

lemma foldl_lastEnd (c : List TimedWord) : ∀ (t : ℚ),
    c.foldl (fun _ w => w.end_sec) t = t ∨
      ∃ w ∈ c, c.foldl (fun _ w => w.end_sec) t = w.end_sec := by
  induction c with
  | nil => intro t; left; rfl
  | cons x xs ih =>
    intro t
    rcases ih x.end_sec with h | ⟨w, hw, h⟩
    · right; exact ⟨x, by simp, by simpa using h⟩
    · right; exact ⟨w, by simp [hw], by simpa using h⟩

lemma dedupGo_exists_drop (c f : List TimedWord) :
    ∀ (rem i : ℕ), ∃ j, dedupGo c f i rem = f.drop j := by
  intro rem
  induction rem with
  | zero => intro i; exact ⟨0, by simp [dedupGo]⟩
  | succ m ih =>
    intro i
    by_cases h : ngramMatch c f i
    · exact ⟨i, by simp [dedupGo, h]⟩
    · obtain ⟨j, hj⟩ := ih (i + 1)
      exact ⟨j, by simp [dedupGo, h, hj]⟩

lemma insertCore_exists_drop (c : List TimedWord) (lct : ℚ) (f : List TimedWord) :
    ∃ j, insertCore c lct f = f.drop j := by
  match f with
  | [] => exact ⟨0, by simp [insertCore]⟩
  | w :: rest =>
    by_cases h1 : |w.start_sec - lct| < 1
    · by_cases h2 : c ≠ []
      · simpa [insertCore, h1, h2] using dedupGo_exists_drop c (w :: rest) _ 1
      · exact ⟨0, by simp [insertCore, h1, h2]⟩
    · exact ⟨0, by simp [insertCore, h1]⟩

lemma insert_new_mem (hb : HypothesisBuffer) (ws : List TimedWord) (off : ℚ) :
    ∀ w ∈ (hb.insert ws off).new,
      w ∈ shiftWords ws off ∧ hb.last_commited_time - 1/10 < w.start_sec := by
  intro w hw
  obtain ⟨j, hj⟩ := insertCore_exists_drop hb.commited_in_buffer hb.last_commited_time
    (dropOldWords hb.last_commited_time (shiftWords ws off))
  rw [HypothesisBuffer.insert] at hw
  simp only at hw
  rw [hj] at hw
  have hmem := List.mem_of_mem_drop hw
  rw [dropOldWords, List.mem_filter] at hmem
  exact ⟨hmem.1, by simpa using hmem.2⟩

lemma dedupGo_find (c f : List TimedWord) : ∀ (rem i : ℕ),
    dedupGo c f i rem =
      match (List.range' i rem).find? (fun j => ngramMatch c f j) with
      | some j => f.drop j
      | none => f := by
  intro rem
  induction rem with
  | zero => intro i; simp [dedupGo, List.range']
  | succ m ih =>
    intro i
    rw [List.range'_succ]
    by_cases h : ngramMatch c f i
    · simp [dedupGo, h, List.find?_cons]
    · simp only [dedupGo, h, if_false, List.find?_cons, Bool.false_eq_true]
      exact ih (i + 1)

lemma find?_range'_least (p : ℕ → Bool) (n s j : ℕ)
    (h : (List.range' s n).find? p = some j) :
    p j = true ∧ s ≤ j ∧ ∀ k, s ≤ k → k < j → p k = false := by
  rw [List.find?_range'_eq_some] at h
  obtain ⟨hp, hmem, hleast⟩ := h
  rw [List.mem_range'_1] at hmem
  exact ⟨hp, hmem.1, fun k hk1 hk2 => by simpa using hleast k hk1 hk2⟩

/-! ## Claim C5: flush equals the reference LCP-commit definition -/

/-- C5.  `HypothesisBuffer.flush` coincides with the reference LCP-commit
definition `flushSpec` written from the spec's words: pop matching heads into
`commit` updating `last_commited_time` with each popped word's `end_sec`, then
`buffer := remaining new`, `new := []`, extend `commited_in_buffer` with
`commit`, and return `commit`. -/
theorem flush_equals_lcp_reference (hb : HypothesisBuffer) : hb.flush = flushSpec hb := by
  simp only [HypothesisBuffer.flush, flushSpec, flushWhile_fst, flushWhile_newRem,
    flushWhile_lct]

/-! ## Claim C3: which n-gram overlap length the dedup removes -/

/-- Committed history `["a", "a"]` with `last_commited_time = 2`: both overlap
lengths 1 and 2 match the head of the new words below. -/
def dedupExHB : HypothesisBuffer :=
  { commited_in_buffer := [⟨0, 1, "a"⟩, ⟨1, 2, "a"⟩], buffer := [], new := [],
    last_commited_time := 2 }

/-- New words `["a", "a", "b"]` starting within 1 s of `last_commited_time`. -/
def dedupExWords : List TimedWord := [⟨39/20, 5/2, "a"⟩, ⟨5/2, 3, "a"⟩, ⟨3, 4, "b"⟩]

/-- C3 counterexample.  On this input both `i = 1` and `i = 2` are matching
overlap lengths, yet `insert` removes only one word from the front of `new` —
the smallest matching `i`, not the largest: the loop `break`s on its first
match. -/
theorem dedup_not_largest_ngram :
    ngramMatch dedupExHB.commited_in_buffer dedupExWords 1 = true ∧
    ngramMatch dedupExHB.commited_in_buffer dedupExWords 2 = true ∧
    (dedupExHB.insert dedupExWords 0).new = dedupExWords.drop 1 ∧
    (dedupExHB.insert dedupExWords 0).new ≠ dedupExWords.drop 2 := by
  have heq : (dedupExHB.insert dedupExWords 0).new = dedupExWords.drop 1 := by
    have hf : dropOldWords dedupExHB.last_commited_time (shiftWords dedupExWords 0) =
        dedupExWords := by
      norm_num [dropOldWords, shiftWords, dedupExHB, dedupExWords]
    rw [HypothesisBuffer.insert]
    simp only [hf]
    rw [insertCore.eq_def]
    simp only [dedupExWords]
    norm_num [dedupExHB, dedupGo, abs_lt,
      show ngramMatch [(⟨0, 1, "a"⟩ : TimedWord), ⟨1, 2, "a"⟩]
        [(⟨39/20, 5/2, "a"⟩ : TimedWord), ⟨5/2, 3, "a"⟩, ⟨3, 4, "b"⟩] 1 = true from
        by decide]
    simp
  refine ⟨by decide, by decide, heq, ?_⟩
  rw [heq]
  intro h
  have hlen := congrArg List.length h
  simp [dedupExWords] at hlen

/-- C3 amended.  When the first surviving new word starts within 1 s of
`last_commited_time` and committed history is non-empty, the dedup removes from
the front of `new` exactly the SMALLEST matching overlap length
`i ∈ 1..min(5, |committed|, |new|)` (first match wins; the loop breaks at the
first matching `i`), and leaves `new` unchanged when no length matches. -/
theorem dedup_removes_smallest_matching_ngram (hb : HypothesisBuffer)
    (ws : List TimedWord) (off : ℚ) (w : TimedWord) (rest : List TimedWord)
    (hf : dropOldWords hb.last_commited_time (shiftWords ws off) = w :: rest)
    (hnear : |w.start_sec - hb.last_commited_time| < 1)
    (hc : hb.commited_in_buffer ≠ []) :
    ((hb.insert ws off).new =
      match firstNgramMatch hb.commited_in_buffer (w :: rest)
          (min (min hb.commited_in_buffer.length (w :: rest).length) 5) with
      | some i => (w :: rest).drop i
      | none => w :: rest) ∧
    ∀ i, firstNgramMatch hb.commited_in_buffer (w :: rest)
          (min (min hb.commited_in_buffer.length (w :: rest).length) 5) = some i →
        ngramMatch hb.commited_in_buffer (w :: rest) i = true ∧ 1 ≤ i ∧
        ∀ j, 1 ≤ j → j < i → ngramMatch hb.commited_in_buffer (w :: rest) j = false := by
  constructor
  · rw [HypothesisBuffer.insert]
    simp only [hf]
    simp [insertCore, hnear, hc, dedupGo_find, firstNgramMatch]
  · intro i hi
    exact find?_range'_least _ _ _ _ hi

/-- C3 witness: the theorem applied at the concrete dedup example; the smallest
matching length is 1, so exactly one word is removed. -/
theorem dedup_removes_smallest_matching_ngram_witness :
    dropOldWords dedupExHB.last_commited_time (shiftWords dedupExWords 0) =
      (⟨39/20, 5/2, "a"⟩ : TimedWord) :: [⟨5/2, 3, "a"⟩, ⟨3, 4, "b"⟩] ∧
    |(⟨39/20, 5/2, "a"⟩ : TimedWord).start_sec - dedupExHB.last_commited_time| < 1 ∧
    dedupExHB.commited_in_buffer ≠ [] ∧
    (dedupExHB.insert dedupExWords 0).new = dedupExWords.drop 1 := by
  have hf : dropOldWords dedupExHB.last_commited_time (shiftWords dedupExWords 0) =
      (⟨39/20, 5/2, "a"⟩ : TimedWord) :: [⟨5/2, 3, "a"⟩, ⟨3, 4, "b"⟩] := by
    norm_num [dropOldWords, shiftWords, dedupExHB, dedupExWords]
  have hnear : |(⟨39/20, 5/2, "a"⟩ : TimedWord).start_sec -
      dedupExHB.last_commited_time| < 1 := by
    norm_num [dedupExHB, abs_lt]
  have hc : dedupExHB.commited_in_buffer ≠ [] := by simp [dedupExHB]
  refine ⟨hf, hnear, hc, ?_⟩
  refine ((dedup_removes_smallest_matching_ngram dedupExHB dedupExWords 0
    ⟨39/20, 5/2, "a"⟩ [⟨5/2, 3, "a"⟩, ⟨3, 4, "b"⟩] hf hnear hc).1).trans ?_
  rw [show firstNgramMatch dedupExHB.commited_in_buffer
      ((⟨39/20, 5/2, "a"⟩ : TimedWord) :: [⟨5/2, 3, "a"⟩, ⟨3, 4, "b"⟩])
      (min (min dedupExHB.commited_in_buffer.length
        ((⟨39/20, 5/2, "a"⟩ : TimedWord) :: [⟨5/2, 3, "a"⟩, ⟨3, 4, "b"⟩]).length) 5) =
      some 1 from by decide]
  simp [dedupExWords]

/-! ## Claim C4: the insert drop filter -/

/-- C4.  In `insert`, after shifting by `offset`: every word whose shifted
start is `≤ last_commited_time - 0.1` is absent from the buffer's `new` list
(hence from the subsequent flush), and every word whose shifted start is
`> last_commited_time - 0.1` survives the drop filter. -/
theorem insert_drop_filter_correct (hb : HypothesisBuffer) (ws : List TimedWord)
    (off : ℚ) :
    (∀ w ∈ shiftWords ws off,
        w.start_sec ≤ hb.last_commited_time - 1/10 → w ∉ (hb.insert ws off).new) ∧
    (∀ w ∈ shiftWords ws off,
        hb.last_commited_time - 1/10 < w.start_sec →
          w ∈ dropOldWords hb.last_commited_time (shiftWords ws off)) := by
  constructor
  · intro w _ hle hmem
    have h := (insert_new_mem hb ws off w hmem).2
    linarith
  · intro w hmem hgt
    rw [dropOldWords, List.mem_filter]
    exact ⟨hmem, by simpa using hgt⟩

/-- C4 witness: a stale word (start −1 ≤ −0.1) is dropped, a fresh word
(start 2 > −0.1) survives, starting from the freshly initialized buffer. -/
theorem insert_drop_filter_correct_witness :
    (⟨-1, 1, "x"⟩ : TimedWord) ∈ shiftWords [⟨-1, 1, "x"⟩, ⟨2, 3, "y"⟩] 0 ∧
    (⟨-1, 1, "x"⟩ : TimedWord).start_sec ≤
      HypothesisBuffer.initState.last_commited_time - 1/10 ∧
    (⟨-1, 1, "x"⟩ : TimedWord) ∉
      (HypothesisBuffer.initState.insert [⟨-1, 1, "x"⟩, ⟨2, 3, "y"⟩] 0).new ∧
    (⟨2, 3, "y"⟩ : TimedWord) ∈
      dropOldWords HypothesisBuffer.initState.last_commited_time
        (shiftWords [⟨-1, 1, "x"⟩, ⟨2, 3, "y"⟩] 0) :=
  by
  have hmem : (⟨-1, 1, "x"⟩ : TimedWord) ∈ shiftWords [⟨-1, 1, "x"⟩, ⟨2, 3, "y"⟩] 0 := by
    norm_num [shiftWords]
  have hmem2 : (⟨2, 3, "y"⟩ : TimedWord) ∈ shiftWords [⟨-1, 1, "x"⟩, ⟨2, 3, "y"⟩] 0 := by
    norm_num [shiftWords]
  have hle : (⟨-1, 1, "x"⟩ : TimedWord).start_sec ≤
      HypothesisBuffer.initState.last_commited_time - 1/10 := by
    norm_num [HypothesisBuffer.initState]
  have hgt : HypothesisBuffer.initState.last_commited_time - 1/10 <
      (⟨2, 3, "y"⟩ : TimedWord).start_sec := by
    norm_num [HypothesisBuffer.initState]
  exact ⟨hmem, hle,
    (insert_drop_filter_correct HypothesisBuffer.initState
      [⟨-1, 1, "x"⟩, ⟨2, 3, "y"⟩] 0).1 _ hmem hle,
    (insert_drop_filter_correct HypothesisBuffer.initState
      [⟨-1, 1, "x"⟩, ⟨2, 3, "y"⟩] 0).2 _ hmem2 hgt⟩

/-! ## Claim C10: silence below the timeout is a no-op while in speech -/

/-- C10.  A silence packet received while in speech, before the silence timeout
elapses, returns the empty commit list and leaves the whole speaker state
unchanged: the packet's audio is appended neither to the audio buffer nor to
the pre-speech buffer, and all other fields are untouched. -/
theorem silence_before_timeout_is_noop (sp : SpeechProcessor) (audio : List ℚ)
    (ts t : ℚ) (resp : ASRResponse)
    (hin : sp.in_speech = true) (hlst : sp.last_speech_time = some t)
    (hto : ts - t < sp.silence_timeout_sec) :
    onVadResult sp false audio ts resp = (sp, []) := by
  have hnle : ¬ sp.silence_timeout_sec ≤ ts - t := not_le.mpr hto
  simp [onVadResult, hlst, hin, hnle]

/-- A speaker mid-speech with `last_speech_time = 10`. -/
def spSilent : SpeechProcessor :=
  { SpeechProcessor.initState 5 1 1 with
    in_speech := true, last_speech_time := some 10, audio_buffer := [1, 2, 3] }

/-- C10 witness: a silence packet at t = 10.5, half the 1 s timeout, changes
nothing. -/
theorem silence_before_timeout_is_noop_witness :
    spSilent.in_speech = true ∧ spSilent.last_speech_time = some 10 ∧
    (21/2 : ℚ) - 10 < spSilent.silence_timeout_sec ∧
    onVadResult spSilent false [5, 6] (21/2) emptyResponse = (spSilent, []) :=
  by
  have hto : (21/2 : ℚ) - 10 < spSilent.silence_timeout_sec := by
    norm_num [spSilent, SpeechProcessor.initState]
  exact ⟨rfl, rfl, hto,
    silence_before_timeout_is_noop spSilent [5, 6] (21/2) 10 emptyResponse rfl rfl hto⟩

/-! ## Claim C2: ordering of commits and of last_commited_time -/

/-- C2 amended.  On every `insert`-then-`flush` cycle, provided the recognizer
word list is well-formed (each word has `start_sec ≤ end_sec` and the list has
strictly increasing `end_sec`), the returned commit list has strictly
increasing `end_sec` within the cycle, and `last_commited_time` never drops by
0.1 s or more — it can decrease by less than 0.1 s across cycles because
`insert` keeps words up to 0.1 s older than `last_commited_time` (the 100 ms
jitter slack), so the global sequence of commit end times need not be
monotone. -/
theorem commit_order_slack (hb : HypothesisBuffer) (ws : List TimedWord) (off : ℚ)
    (h1 : ∀ w ∈ ws, w.start_sec ≤ w.end_sec)
    (h2 : List.Pairwise (fun a b => a.end_sec < b.end_sec) ws) :
    List.Chain' (fun a b => a.end_sec < b.end_sec) ((hb.insert ws off).flush).2 ∧
    hb.last_commited_time - 1/10 < ((hb.insert ws off).flush).1.last_commited_time := by
  obtain ⟨j, hj⟩ := insertCore_exists_drop hb.commited_in_buffer hb.last_commited_time
    (dropOldWords hb.last_commited_time (shiftWords ws off))
  have hshift_se : ∀ w ∈ shiftWords ws off, w.start_sec ≤ w.end_sec := by
    intro w hw
    rw [shiftWords, List.mem_map] at hw
    obtain ⟨v, hv, rfl⟩ := hw
    exact add_le_add_right (h1 v hv) off
  have hshift_pw : List.Pairwise (fun a b => a.end_sec < b.end_sec) (shiftWords ws off) := by
    rw [shiftWords, List.pairwise_map]
    refine h2.imp fun h => ?_
    exact add_lt_add_right h off
  have hnew_eq : (hb.insert ws off).new =
      (dropOldWords hb.last_commited_time (shiftWords ws off)).drop j := hj
  have hnew_sub : (hb.insert ws off).new.Sublist (shiftWords ws off) := by
    rw [hnew_eq]
    exact (List.drop_sublist _ _).trans (List.filter_sublist _)
  have hnew_pw : List.Pairwise (fun a b => a.end_sec < b.end_sec) (hb.insert ws off).new :=
    List.Pairwise.sublist hnew_sub hshift_pw
  have hcommits : ((hb.insert ws off).flush).2 =
      lcpCommit (hb.insert ws off).new hb.buffer :=
    flushWhile_fst (hb.insert ws off).new hb.buffer hb.last_commited_time
  constructor
  · rw [hcommits]
    exact (List.Pairwise.sublist (lcpCommit_sublist _ _) hnew_pw).chain'
  · have hlct : ((hb.insert ws off).flush).1.last_commited_time =
        (lcpCommit (hb.insert ws off).new hb.buffer).foldl (fun _ w => w.end_sec)
          hb.last_commited_time :=
      flushWhile_lct (hb.insert ws off).new hb.buffer hb.last_commited_time
    rw [hlct]
    rcases foldl_lastEnd (lcpCommit (hb.insert ws off).new hb.buffer)
        hb.last_commited_time with h | ⟨w, hw, h⟩
    · rw [h]; linarith
    · rw [h]
      have hwnew : w ∈ (hb.insert ws off).new := (lcpCommit_sublist _ _).subset hw
      obtain ⟨hmem, hstart⟩ := insert_new_mem hb ws off w hwnew
      have hse := hshift_se w hmem
      linarith

/-- C2 witness: one well-formed cycle from the initial buffer satisfies both
conclusions. -/
theorem commit_order_slack_witness :
    (∀ w ∈ [(⟨0, 1, "a"⟩ : TimedWord)], w.start_sec ≤ w.end_sec) ∧
    List.Pairwise (fun a b : TimedWord => a.end_sec < b.end_sec) [(⟨0, 1, "a"⟩ : TimedWord)] ∧
    (List.Chain' (fun a b : TimedWord => a.end_sec < b.end_sec)
      ((HypothesisBuffer.initState.insert [⟨0, 1, "a"⟩] 0).flush).2 ∧
    HypothesisBuffer.initState.last_commited_time - 1/10 <
      ((HypothesisBuffer.initState.insert [⟨0, 1, "a"⟩] 0).flush).1.last_commited_time) := by
  have ha : ∀ w ∈ [(⟨0, 1, "a"⟩ : TimedWord)], w.start_sec ≤ w.end_sec := by norm_num
  have hb : List.Pairwise (fun a b : TimedWord => a.end_sec < b.end_sec)
      [(⟨0, 1, "a"⟩ : TimedWord)] := by simp
  exact ⟨ha, hb, commit_order_slack HypothesisBuffer.initState [⟨0, 1, "a"⟩] 0 ha hb⟩

/-- Words driving the C2 counterexample run. -/
def wA : TimedWord := ⟨0, 1, "a"⟩

/-- Second word of the C2 counterexample run. -/
def wB : TimedWord := ⟨1, 2, "b"⟩

/-- A short word lying inside the 100 ms insert slack: it starts at 1.95 and
ends at 1.96, before the current `last_commited_time` of 2. -/
def wC : TimedWord := ⟨39/20, 49/25, "c"⟩

/-- The C2 counterexample run: two cycles committing "a","b" (ending at 2),
then two cycles committing "c" (ending at 1.96 < 2). -/
def commitRunSteps : List (List TimedWord × ℚ) :=
  [([wA, wB], 0), ([wA, wB], 0), ([wC], 0), ([wC], 0)]

/-- C2 counterexample.  Over this run of one `HypothesisBuffer`, the
concatenation of the flush commit lists has end times `[1, 2, 1.96]` — not
strictly increasing — and `last_commited_time` DECREASES from 2 (after the
second cycle) to 1.96 (after the fourth): the 0.1 s insert slack admits a
commit ending just before the previous `last_commited_time`. -/
theorem commit_end_times_can_decrease :
    (runHBTrace HypothesisBuffer.initState (commitRunSteps.take 2)).1.last_commited_time
      = 2 ∧
    (runHBTrace HypothesisBuffer.initState commitRunSteps).1.last_commited_time = 49/25 ∧
    (49 : ℚ)/25 < 2 ∧
    ((runHBTrace HypothesisBuffer.initState commitRunSteps).2.flatten.map
      TimedWord.end_sec) = [1, 2, 49/25] := by
  have h1 : (HypothesisBuffer.initState.insert [wA, wB] 0).flush =
      (⟨[], [wA, wB], [], 0⟩, []) := by
    have hins : (HypothesisBuffer.initState.insert [wA, wB] 0).new = [wA, wB] := by
      rw [HypothesisBuffer.insert]
      norm_num [dropOldWords, shiftWords, HypothesisBuffer.initState, insertCore, wA, wB]
    rw [HypothesisBuffer.flush, hins]
    norm_num [flushWhile, HypothesisBuffer.initState, HypothesisBuffer.insert]
  have h2 : ((⟨[], [wA, wB], [], 0⟩ : HypothesisBuffer).insert [wA, wB] 0).flush =
      (⟨[wA, wB], [], [], 2⟩, [wA, wB]) := by
    have hins : ((⟨[], [wA, wB], [], 0⟩ : HypothesisBuffer).insert [wA, wB] 0).new =
        [wA, wB] := by
      rw [HypothesisBuffer.insert]
      norm_num [dropOldWords, shiftWords, insertCore, wA, wB]
    rw [HypothesisBuffer.flush, hins]
    norm_num [flushWhile, HypothesisBuffer.insert, wA, wB]
  have h3 : ((⟨[wA, wB], [], [], 2⟩ : HypothesisBuffer).insert [wC] 0).flush =
      (⟨[wA, wB], [wC], [], 2⟩, []) := by
    have hins : ((⟨[wA, wB], [], [], 2⟩ : HypothesisBuffer).insert [wC] 0).new = [wC] := by
      rw [HypothesisBuffer.insert]
      rw [show dropOldWords (⟨[wA, wB], [], [], 2⟩ : HypothesisBuffer).last_commited_time
          (shiftWords [wC] 0) = [wC] from by
        norm_num [dropOldWords, shiftWords, wC]]
      rw [insertCore.eq_def]
      norm_num [wC, abs_lt, dedupGo]
      exact fun _ => by decide
    rw [HypothesisBuffer.flush, hins]
    norm_num [flushWhile, HypothesisBuffer.insert]
  have h4 : ((⟨[wA, wB], [wC], [], 2⟩ : HypothesisBuffer).insert [wC] 0).flush =
      (⟨[wA, wB, wC], [], [], 49/25⟩, [wC]) := by
    have hins : ((⟨[wA, wB], [wC], [], 2⟩ : HypothesisBuffer).insert [wC] 0).new = [wC] := by
      rw [HypothesisBuffer.insert]
      rw [show dropOldWords (⟨[wA, wB], [wC], [], 2⟩ : HypothesisBuffer).last_commited_time
          (shiftWords [wC] 0) = [wC] from by
        norm_num [dropOldWords, shiftWords, wC]]
      rw [insertCore.eq_def]
      norm_num [wC, abs_lt, dedupGo]
      exact fun _ => by decide
    rw [HypothesisBuffer.flush, hins]
    norm_num [flushWhile, HypothesisBuffer.insert, wC]
  refine ⟨?_, ?_, by norm_num, ?_⟩
  · simp [commitRunSteps, runHBTrace, h1, h2]
  · simp [commitRunSteps, runHBTrace, h1, h2, h3, h4]
  · simp only [commitRunSteps, runHBTrace, h1, h2, h3, h4]
    simp [wA, wB, wC]

/-! ## Claim C9: VAD packet sizes and totals -/

/-- Invariant of the emission loop: with positive packet size and enough fuel,
every emitted packet has exactly `ps` samples, samples are conserved, and
fewer than `ps` samples remain pending. -/
lemma emitGo_spec (ps : ℕ) (hps : 0 < ps) : ∀ (fuel : ℕ) (buf : List ℤ),
    buf.length ≤ fuel →
    (∀ p ∈ (emitGo ps fuel buf).2, p.length = ps) ∧
    ((emitGo ps fuel buf).2.map List.length).sum + (emitGo ps fuel buf).1.length
      = buf.length ∧
    (emitGo ps fuel buf).1.length < ps := by
  intro fuel
  induction fuel with
  | zero =>
    intro buf hlen
    refine ⟨by simp [emitGo], by simp [emitGo], ?_⟩
    simp [emitGo]
    omega
  | succ m ih =>
    intro buf hlen
    by_cases h : 0 < ps ∧ ps ≤ buf.length
    · have hstep : emitGo ps (m + 1) buf =
          ((emitGo ps m (buf.drop ps)).1, buf.take ps :: (emitGo ps m (buf.drop ps)).2) := by
        simp only [emitGo]
        rw [if_pos h]
      have hdrop : (buf.drop ps).length ≤ m := by
        rw [List.length_drop]; omega
      obtain ⟨ha, hb, hc⟩ := ih (buf.drop ps) hdrop
      have htake : (buf.take ps).length = ps := by
        rw [List.length_take]; omega
      rw [hstep]
      refine ⟨?_, ?_, hc⟩
      · intro p hp
        rcases List.mem_cons.mp hp with hp | hp
        · rw [hp]; exact htake
        · exact ha p hp
      · simp only [List.map_cons, List.sum_cons, htake]
        rw [List.length_drop] at hb
        omega
    · have hstep : emitGo ps (m + 1) buf = (buf, []) := by
        simp only [emitGo]
        rw [if_neg h]
      rw [hstep]
      refine ⟨by simp, by simp, ?_⟩
      simp only [List.length_nil]
      omega

/-- `vadEmit` specialization of the emission-loop invariant. -/
lemma vadEmit_spec (ps : ℕ) (hps : 0 < ps) (buf : List ℤ) :
    (∀ p ∈ (vadEmit buf ps).2, p.length = ps) ∧
    ((vadEmit buf ps).2.map List.length).sum + (vadEmit buf ps).1.length = buf.length ∧
    (vadEmit buf ps).1.length < ps :=
  emitGo_spec ps hps buf.length buf le_rfl

/-- Invariant of a push sequence into one pending buffer: packets all have
exactly `ps` samples, samples are conserved, and the pending remainder stays
below `ps`. -/
lemma foldPackets_invariant (ps : ℕ) (hps : 0 < ps) :
    ∀ (pushes : List (List ℤ)) (buf : List ℤ) (acc : List (List ℤ)),
    buf.length < ps → (∀ p ∈ acc, p.length = ps) →
    (∀ p ∈ (pushes.foldl
        (fun a inc =>
          let s := addAudioMixed a.1 ps inc
          (s.1, a.2 ++ s.2)) (buf, acc)).2, p.length = ps) ∧
    ((pushes.foldl
        (fun a inc =>
          let s := addAudioMixed a.1 ps inc
          (s.1, a.2 ++ s.2)) (buf, acc)).2.map List.length).sum +
      (pushes.foldl
        (fun a inc =>
          let s := addAudioMixed a.1 ps inc
          (s.1, a.2 ++ s.2)) (buf, acc)).1.length =
      (acc.map List.length).sum + buf.length + (pushes.map List.length).sum ∧
    (pushes.foldl
        (fun a inc =>
          let s := addAudioMixed a.1 ps inc
          (s.1, a.2 ++ s.2)) (buf, acc)).1.length < ps := by
  intro pushes
  induction pushes with
  | nil =>
    intro buf acc hbuf hacc
    refine ⟨hacc, by simp, hbuf⟩
  | cons inc rest ih =>
    intro buf acc hbuf hacc
    obtain ⟨ha, hb, hc⟩ := vadEmit_spec ps hps (buf ++ inc)
    have ha2 : ∀ p ∈ (addAudioMixed buf ps inc).2, p.length = ps := ha
    have hb2 : ((addAudioMixed buf ps inc).2.map List.length).sum +
        (addAudioMixed buf ps inc).1.length = (buf ++ inc).length := hb
    have hc2 : (addAudioMixed buf ps inc).1.length < ps := hc
    have hacc2 : ∀ p ∈ acc ++ (addAudioMixed buf ps inc).2, p.length = ps := by
      intro p hp
      rcases List.mem_append.mp hp with hp | hp
      · exact hacc p hp
      · exact ha2 p hp
    obtain ⟨ih1, ih2, ih3⟩ := ih (addAudioMixed buf ps inc).1
      (acc ++ (addAudioMixed buf ps inc).2) hc2 hacc2
    refine ⟨?_, ?_, ?_⟩
    · simpa using ih1
    · simp only [List.foldl_cons]
      rw [show ((rest.foldl
          (fun a inc =>
            let s := addAudioMixed a.1 ps inc
            (s.1, a.2 ++ s.2))
          ((addAudioMixed buf ps inc).1, acc ++ (addAudioMixed buf ps inc).2)).2.map
            List.length).sum +
          (rest.foldl
            (fun a inc =>
              let s := addAudioMixed a.1 ps inc
              (s.1, a.2 ++ s.2))
            ((addAudioMixed buf ps inc).1, acc ++ (addAudioMixed buf ps inc).2)).1.length =
          ((acc ++ (addAudioMixed buf ps inc).2).map List.length).sum +
            (addAudioMixed buf ps inc).1.length + (rest.map List.length).sum from ih2]
      simp only [List.map_append, List.sum_append, List.map_cons, List.sum_cons]
      rw [List.length_append] at hb2
      omega
    · simpa using ih3

/-- `lookupBuf` as an `Option.getD` over `find?`. -/
lemma lookupBuf_eq (m : List (String × List ℤ)) (sid : String) :
    lookupBuf m sid =
      ((m.find? fun q => decide (q.1 = sid)).map Prod.snd).getD [] := by
  rw [lookupBuf]
  cases h : m.find? fun q => decide (q.1 = sid) <;> simp [h]

/-- After updating the entry for `sid` in place, looking `sid` up finds the new
buffer. -/
lemma find?_map_update (sid : String) (b : List ℤ) :
    ∀ (m : List (String × List ℤ)),
    m.any (fun q => decide (q.1 = sid)) = true →
    (List.find? (fun q => decide (q.1 = sid))
      (m.map fun q => if q.1 = sid then (q.1, b) else q)).map Prod.snd = some b := by
  intro m
  induction m with
  | nil => simp
  | cons p rest ih =>
    intro hany
    by_cases hp : p.1 = sid
    · simp [List.find?_cons, hp]
    · have hrest : rest.any (fun q => decide (q.1 = sid)) = true := by
        simpa [List.any_cons, hp] using hany
      simpa [List.find?_cons, hp] using ih hrest

/-- After appending a fresh entry for an unseen `sid`, looking `sid` up finds
the new buffer. -/
lemma find?_append_missing (sid : String) (b : List ℤ) :
    ∀ (m : List (String × List ℤ)),
    m.any (fun q => decide (q.1 = sid)) = false →
    (List.find? (fun q => decide (q.1 = sid)) (m ++ [(sid, b)])).map Prod.snd
      = some b := by
  intro m
  induction m with
  | nil => simp
  | cons p rest ih =>
    intro hany
    have hp : ¬ p.1 = sid := by
      intro h
      simp [List.any_cons, h] at hany
    have hrest : rest.any (fun q => decide (q.1 = sid)) = false := by
      simpa [List.any_cons, hp] using hany
    simpa [List.find?_cons, hp] using ih hrest

/-- Storing a buffer for `sid` and looking it up returns that buffer. -/
lemma lookup_update (m : List (String × List ℤ)) (sid : String) (b : List ℤ) :
    lookupBuf (updateBuf m sid b) sid = b := by
  by_cases hany : m.any (fun q => decide (q.1 = sid)) = true
  · rw [updateBuf, if_pos hany, lookupBuf_eq, find?_map_update sid b m hany]
    rfl
  · have hany2 : m.any (fun q => decide (q.1 = sid)) = false := by
      cases h : m.any (fun q => decide (q.1 = sid))
      · rfl
      · exact absurd h hany
    rw [updateBuf, if_neg hany, lookupBuf_eq, find?_append_missing sid b m hany2]
    rfl

/-- C9.  For every sequence of pushes into one pending VAD buffer with positive
`packet_samples`, every emitted packet holds exactly `packet_samples` samples
and the total emitted equals `⌊S / packet_samples⌋ × packet_samples` where `S`
is the total number of samples pushed; moreover a per-speaker push acts on the
selected speaker's buffer exactly as a mixed-mode push acts on the single
buffer. -/
theorem vad_packets_exact (ps : ℕ) (pushes : List (List ℤ)) (hps : 0 < ps) :
    (∀ p ∈ (foldPackets ps pushes).2, p.length = ps) ∧
    ((foldPackets ps pushes).2.map List.length).sum =
      ((pushes.map List.length).sum / ps) * ps ∧
    (∀ (m : List (String × List ℤ)) (sid : String) (inc : List ℤ),
      (addAudioPerSpeaker m ps inc sid).2 = (addAudioMixed (lookupBuf m sid) ps inc).2 ∧
      lookupBuf (addAudioPerSpeaker m ps inc sid).1 sid =
        (addAudioMixed (lookupBuf m sid) ps inc).1) := by
  obtain ⟨h1, h2, h3⟩ := foldPackets_invariant ps hps pushes [] []
    (by simpa using hps) (by simp)
  have hfold : foldPackets ps pushes = pushes.foldl
      (fun a inc =>
        let s := addAudioMixed a.1 ps inc
        (s.1, a.2 ++ s.2)) ([], []) := rfl
  refine ⟨by rw [hfold]; exact h1, ?_, ?_⟩
  · rw [hfold]
    simp only [List.map_nil, List.sum_nil, List.length_nil, Nat.zero_add,
      Nat.add_zero] at h1 h2 h3 ⊢
    have hmem : ∀ x ∈ (pushes.foldl
        (fun a inc => ((addAudioMixed a.1 ps inc).1, a.2 ++ (addAudioMixed a.1 ps inc).2))
        ([], [])).2.map List.length, x = ps := by
      intro x hx
      rw [List.mem_map] at hx
      obtain ⟨p, hp, rfl⟩ := hx
      exact h1 p hp
    have hrepl := List.eq_replicate_of_mem hmem
    rw [hrepl] at h2 ⊢
    rw [List.sum_replicate, smul_eq_mul] at h2 ⊢
    rw [List.length_map] at h2 ⊢
    rw [← h2, Nat.add_comm, Nat.mul_comm _ ps, Nat.add_mul_div_left _ _ hps,
      Nat.div_eq_of_lt h3, Nat.zero_add, Nat.mul_comm ps _]
  · intro m sid inc
    refine ⟨rfl, ?_⟩
    have hupd : (addAudioPerSpeaker m ps inc sid).1 =
        updateBuf m sid (addAudioMixed (lookupBuf m sid) ps inc).1 := rfl
    rw [hupd, lookup_update]

/-- C9 witness: packet size 3, pushes of 2 and 3 samples: 5 samples total emit
exactly `(5 / 3) * 3 = 3` samples. -/
theorem vad_packets_exact_witness :
    0 < 3 ∧
    ((foldPackets 3 [[1, 2], [3, 4, 5]]).2.map List.length).sum =
      ((([[1, 2], [3, 4, 5]] : List (List ℤ)).map List.length).sum / 3) * 3 :=
  ⟨by decide, (vad_packets_exact 3 [[1, 2], [3, 4, 5]] (by decide)).2.1⟩

/-! ## Claim C8: shared context sortedness and history bound -/

/-- One `add_committed_words` call preserves `history_size`, leaves
`all_committed_words` sorted by `start_sec`, and keeps the sentence history
within `history_size`, provided `history_size ≥ 1`. -/
lemma add_committed_words_invariant (split : String → List String)
    (ctx : SharedConversationContext) (words : List TimedWord) (speaker : Option String)
    (hhs : 1 ≤ ctx.history_size)
    (hsort : List.Pairwise (fun a b : AttrWord => a.start_sec ≤ b.start_sec)
      ctx.all_committed_words)
    (hlen : ctx.recog_sent_history.length ≤ ctx.history_size) :
    (ctx.add_committed_words split words speaker).history_size = ctx.history_size ∧
    List.Pairwise (fun a b : AttrWord => a.start_sec ≤ b.start_sec)
      (ctx.add_committed_words split words speaker).all_committed_words ∧
    (ctx.add_committed_words split words speaker).recog_sent_history.length ≤
      ctx.history_size := by
  rw [SharedConversationContext.add_committed_words]
  by_cases hw : words = []
  · rw [if_pos hw]
    exact ⟨rfl, hsort, hlen⟩
  · rw [if_neg hw]
    dsimp only
    refine ⟨rfl, ?_, ?_⟩
    · have hsorted := @List.sorted_mergeSort AttrWord
        (fun a b : AttrWord => decide (a.start_sec ≤ b.start_sec))
        (fun a b c hab hbc => by
          simp only [decide_eq_true_eq] at hab hbc ⊢
          exact le_trans hab hbc)
        (fun a b => by
          simp only [Bool.or_eq_true, decide_eq_true_eq]
          exact le_total a.start_sec b.start_sec)
        (ctx.all_committed_words ++
          words.map fun w => { start_sec := w.start_sec, end_sec := w.end_sec,
                               text := w.text, speaker := speaker })
      exact hsorted.imp fun h => of_decide_eq_true h
    · by_cases ht : pyStrip (String.intercalate " " (words.map fun w => w.text)) ≠ ""
      · rw [if_pos ht]
        by_cases hgt : ctx.history_size <
            (ctx.recog_sent_history ++
              split (pyStrip (String.intercalate " " (words.map fun w => w.text)))).length
        · rw [if_pos hgt, pySliceLast, if_neg (by omega), List.length_drop]
          omega
        · rw [if_neg hgt]
          omega
      · rw [if_neg ht]
        exact hlen

/-- The invariant holds after every sequence of `add_committed_words` calls. -/
lemma runCtx_invariant (split : String → List String) :
    ∀ (calls : List (List TimedWord × Option String)) (ctx : SharedConversationContext),
    1 ≤ ctx.history_size →
    List.Pairwise (fun a b : AttrWord => a.start_sec ≤ b.start_sec)
      ctx.all_committed_words →
    ctx.recog_sent_history.length ≤ ctx.history_size →
    (runCtx split ctx calls).history_size = ctx.history_size ∧
    List.Pairwise (fun a b : AttrWord => a.start_sec ≤ b.start_sec)
      (runCtx split ctx calls).all_committed_words ∧
    (runCtx split ctx calls).recog_sent_history.length ≤ ctx.history_size := by
  intro calls
  induction calls with
  | nil => intro ctx h1 h2 h3; exact ⟨rfl, h2, h3⟩
  | cons c rest ih =>
    intro ctx h1 h2 h3
    obtain ⟨e1, e2, e3⟩ := add_committed_words_invariant split ctx c.1 c.2 h1 h2 h3
    obtain ⟨f1, f2, f3⟩ := ih (ctx.add_committed_words split c.1 c.2)
      (by omega) e2 (by omega)
    exact ⟨by rw [runCtx, f1, e1], by rw [runCtx]; exact f2, by rw [runCtx]; omega⟩

/-- C8 amended.  For every splitter, every `history_size ≥ 1` and every sequence
of `add_committed_words` calls from a fresh context: `all_committed_words` is
sorted by `start_sec` (stable `mergeSort` on every insert, mirroring Python's
stable `list.sort`), and `len(recog_sent_history) ≤ history_size`.  The
`history_size ≥ 1` hypothesis is forced by the counterexample below: for
`history_size = 0` Python's `l[-0:]` slice is the whole list, so the truncation
never fires. -/
theorem shared_context_sorted_and_bounded (split : String → List String) (hs : ℕ)
    (calls : List (List TimedWord × Option String)) (hhs : 1 ≤ hs) :
    List.Pairwise (fun a b : AttrWord => a.start_sec ≤ b.start_sec)
      (runCtx split (SharedConversationContext.initState hs) calls).all_committed_words ∧
    (runCtx split (SharedConversationContext.initState hs) calls).recog_sent_history.length
      ≤ hs := by
  obtain ⟨g1, g2, g3⟩ := runCtx_invariant split calls
    (SharedConversationContext.initState hs) hhs (by simp [SharedConversationContext.initState])
    (by simp [SharedConversationContext.initState])
  exact ⟨g2, g3⟩

/-- C8 counterexample.  With `history_size = 0`, one committed word pushes one
sentence into `recog_sent_history` and the truncation `l[-0:]` keeps the whole
list, violating `len(recog_sent_history) ≤ history_size`. -/
theorem sent_history_unbounded_when_size_zero :
    ((SharedConversationContext.initState 0).add_committed_words (fun s => [s])
      [⟨0, 1, "Hi"⟩] none).recog_sent_history.length = 1 ∧
    ¬ (((SharedConversationContext.initState 0).add_committed_words (fun s => [s])
      [⟨0, 1, "Hi"⟩] none).recog_sent_history.length ≤
        (SharedConversationContext.initState 0).history_size) := by
  decide

/-- C8 witness: `history_size = 1` and one call committing one word. -/
theorem shared_context_sorted_and_bounded_witness :
    1 ≤ 1 ∧
    (List.Pairwise (fun a b : AttrWord => a.start_sec ≤ b.start_sec)
      (runCtx (fun s => [s]) (SharedConversationContext.initState 1)
        [([⟨0, 1, "Hi"⟩], none)]).all_committed_words ∧
    (runCtx (fun s => [s]) (SharedConversationContext.initState 1)
      [([⟨0, 1, "Hi"⟩], none)]).recog_sent_history.length ≤ 1) :=
  ⟨by decide,
    shared_context_sorted_and_bounded (fun s => [s]) 1 [([⟨0, 1, "Hi"⟩], none)]
      (by decide)⟩

/-! ## Claim C7: the pre-speech buffer bound -/

/-- C7 amended.  The pre-speech audio is capped only when it is consumed: at
each speech start the audio prepended to the working buffer holds at most
`int(pre_speech_buffer_sec * SAMPLING_RATE)` samples (provided that cap is at
least one sample; `pre_speech_buffer_sec = 0` would again hit the Python
`[-0:]` no-op slice).  The deque itself is NOT bounded while silence lasts —
see the counterexample below. -/
theorem pre_roll_capped_at_speech_start (sp : SpeechProcessor) (ts : ℚ)
    (hcap : 1 ≤ (pyInt (sp.pre_speech_buffer_sec * (SAMPLING_RATE : ℚ))).toNat) :
    (onSpeechStart sp ts).audio_buffer.length ≤
      (pyInt (sp.pre_speech_buffer_sec * (SAMPLING_RATE : ℚ))).toNat := by
  rw [onSpeechStart]
  dsimp only
  by_cases h : 0 < sp.pre_speech_buffer.length
  · rw [if_pos h]
    dsimp only
    by_cases hlen : (pyInt (sp.pre_speech_buffer_sec * (SAMPLING_RATE : ℚ))).toNat <
        sp.pre_speech_buffer.flatten.length
    · rw [if_pos hlen, pySliceLast, if_neg (by omega), List.length_drop]
      omega
    · rw [if_neg hlen]
      omega
  · rw [if_neg h]
    simp

/-- Three 1 s silence packets pushed into a fresh speech processor with
`pre_speech_buffer_sec = 1`. -/
def spSilenceRun : SpeechProcessor :=
  (onVadResult (onVadResult (onVadResult (SpeechProcessor.initState 5 1 1) false
    (List.replicate 16000 0) 0 emptyResponse).1 false (List.replicate 16000 0) (1/10)
    emptyResponse).1 false (List.replicate 16000 0) (1/5) emptyResponse).1

/-- C7 counterexample.  `on_vad_result` appends every silence packet to
`pre_speech_buffer` without trimming, so after three 16000-sample silence
packets the deque holds 48000 samples in aggregate — three times
`pre_speech_buffer_sec × SAMPLING_RATE = 16000`.  The claimed invariant
"`pre_roll` never exceeds `pre_speech_buffer_sec × SAMPLE_RATE` samples at
every point" is false. -/
theorem pre_roll_unbounded_during_silence :
    (spSilenceRun.pre_speech_buffer.map List.length).sum = 48000 ∧
    ¬ ((spSilenceRun.pre_speech_buffer.map List.length).sum ≤
      (pyInt (spSilenceRun.pre_speech_buffer_sec * (SAMPLING_RATE : ℚ))).toNat) := by
  have hrun : spSilenceRun = { SpeechProcessor.initState 5 1 1 with
      pre_speech_buffer := [List.replicate 16000 0, List.replicate 16000 0,
        List.replicate 16000 0] } := by
    rfl
  have hsum : (spSilenceRun.pre_speech_buffer.map List.length).sum = 48000 := by
    rw [hrun]
    dsimp only
    norm_num [List.length_replicate]
  refine ⟨hsum, ?_⟩
  rw [hsum, hrun]
  have hcap : (pyInt (({ SpeechProcessor.initState 5 1 1 with
      pre_speech_buffer := [List.replicate 16000 0, List.replicate 16000 0,
        List.replicate 16000 0] } : SpeechProcessor).pre_speech_buffer_sec *
      (SAMPLING_RATE : ℚ))).toNat = 16000 := by
    rw [show ({ SpeechProcessor.initState 5 1 1 with
      pre_speech_buffer := [List.replicate 16000 0, List.replicate 16000 0,
        List.replicate 16000 0] } : SpeechProcessor).pre_speech_buffer_sec = 1 from rfl]
    rw [show ((1 : ℚ) * (SAMPLING_RATE : ℚ)) = 16000 from by norm_num [SAMPLING_RATE]]
    decide
  rw [hcap]
  omega

/-- C7 witness: the default 1 s pre-roll cap is 16000 samples ≥ 1, and at
speech start from a fresh processor the prepended audio is within the cap. -/
theorem pre_roll_capped_at_speech_start_witness :
    1 ≤ (pyInt ((SpeechProcessor.initState 5 1 1).pre_speech_buffer_sec *
      (SAMPLING_RATE : ℚ))).toNat ∧
    (onSpeechStart (SpeechProcessor.initState 5 1 1) 0).audio_buffer.length ≤
      (pyInt ((SpeechProcessor.initState 5 1 1).pre_speech_buffer_sec *
        (SAMPLING_RATE : ℚ))).toNat := by
  have hcap : 1 ≤ (pyInt ((SpeechProcessor.initState 5 1 1).pre_speech_buffer_sec *
      (SAMPLING_RATE : ℚ))).toNat := by
    rw [show (SpeechProcessor.initState 5 1 1).pre_speech_buffer_sec = 1 from rfl,
      show ((1 : ℚ) * (SAMPLING_RATE : ℚ)) = 16000 from by norm_num [SAMPLING_RATE]]
    decide
  exact ⟨hcap, pre_roll_capped_at_speech_start (SpeechProcessor.initState 5 1 1) 0 hcap⟩

/-! ## Claim C6: recognizer failure is treated as an empty response -/

/-- Buffer trimming never touches `last_asr_time` nor the hypothesis
`buffer` field (it only cuts audio and committed history). -/
lemma trimBuffer_fields (sp : SpeechProcessor) :
    (trimBufferAtCommittedWord sp).last_asr_time = sp.last_asr_time ∧
    (trimBufferAtCommittedWord sp).hypothesis_buffer.buffer =
      sp.hypothesis_buffer.buffer := by
  unfold trimBufferAtCommittedWord
  split
  · exact ⟨rfl, rfl⟩
  · dsimp only
    split
    · exact ⟨rfl, rfl⟩
    · split
      · exact ⟨rfl, rfl⟩
      · split
        · exact ⟨rfl, rfl⟩
        · exact ⟨rfl, rfl⟩

/-- C6.  When the recognizer call fails, the (spec-modelled) adapter delivers
the empty response, and `_process_asr` returns normally with no commits from
that response while still updating `last_asr_time` to the call's timestamp —
so the next stride re-attempts recognition.  The hypotheses state that the call
actually reached the recognizer (it passed the two early returns). -/
theorem recognizer_failure_yields_no_commits (sp : SpeechProcessor) (ts : ℚ)
    (isLast : Bool)
    (hpass : ¬ (chunkDur sp < sp.stride_sec ∧ isLast = false))
    (h0 : chunkDur sp ≠ 0) :
    (processAsr sp (transcribeAdapter RecognizerOutcome.failure) ts isLast).commits
      = [] ∧
    (processAsr sp (transcribeAdapter RecognizerOutcome.failure) ts
      isLast).state.last_asr_time = some ts := by
  unfold processAsr
  rw [if_neg hpass, if_neg h0]
  simp only [show extractWords (transcribeAdapter RecognizerOutcome.failure) = []
    from rfl]
  simp only [HypothesisBuffer.insert, shiftWords, List.map_nil, dropOldWords,
    List.filter_nil, insertCore, HypothesisBuffer.flush, flushWhile]
  simp only [ne_eq, not_true_eq_false, if_false, ite_self]
  by_cases htrim : sp.buffer_trimming_sec <
      (sp.audio_buffer.length : ℚ) / (SAMPLING_RATE : ℚ)
  · rw [if_pos htrim]
    obtain ⟨ht1, ht2⟩ := trimBuffer_fields
      { sp with
        hypothesis_buffer :=
          { commited_in_buffer := sp.hypothesis_buffer.commited_in_buffer ++ [],
            buffer := [], new := [],
            last_commited_time := sp.hypothesis_buffer.last_commited_time },
        last_asr_time := some ts,
        committed_words := sp.committed_words }
    cases isLast
    · exact ⟨rfl, ht1⟩
    · simp only [HypothesisBuffer.complete, ht2]
      simp only [ne_eq, not_true_eq_false, if_false]
      exact ⟨rfl, ht1⟩
  · rw [if_neg htrim]
    cases isLast
    · exact ⟨rfl, rfl⟩
    · simp only [HypothesisBuffer.complete]
      exact ⟨rfl, rfl⟩

/-- A speaker with one buffered sample, enough to reach the recognizer on a
final chunk. -/
def spFailure : SpeechProcessor :=
  { SpeechProcessor.initState 5 1 1 with audio_buffer := [0] }

/-- C6 witness: a failing recognizer call on the final chunk yields no commits
and schedules the next stride. -/
theorem recognizer_failure_yields_no_commits_witness :
    ¬ (chunkDur spFailure < spFailure.stride_sec ∧ true = false) ∧
    chunkDur spFailure ≠ 0 ∧
    ((processAsr spFailure (transcribeAdapter RecognizerOutcome.failure) 7 true).commits
        = [] ∧
      (processAsr spFailure (transcribeAdapter RecognizerOutcome.failure) 7
        true).state.last_asr_time = some 7) := by
  have hpass : ¬ (chunkDur spFailure < spFailure.stride_sec ∧ true = false) := by simp
  have h0 : chunkDur spFailure ≠ 0 := by
    norm_num [chunkDur, spFailure, SpeechProcessor.initState, SAMPLING_RATE]
  exact ⟨hpass, h0, recognizer_failure_yields_no_commits spFailure 7 true hpass h0⟩

/-! ## Claim C1: the 30 s audio cap -/

/-- With no committed words, buffer trimming is a no-op (the function returns
immediately). -/
lemma trimBuffer_no_committed (sp : SpeechProcessor) (h : sp.committed_words = []) :
    trimBufferAtCommittedWord sp = sp := by
  unfold trimBufferAtCommittedWord
  rw [if_pos h]

/-- Once past the early returns, `_process_asr` sends to the recognizer exactly
the last `int(30.0 * SAMPLING_RATE)` samples of the audio buffer when the
buffer is longer than 30 s, and the whole buffer otherwise. -/
lemma processAsr_sent_eq (sp : SpeechProcessor) (resp : ASRResponse) (ts : ℚ)
    (isLast : Bool)
    (h1 : ¬ (chunkDur sp < sp.stride_sec ∧ isLast = false)) (h2 : chunkDur sp ≠ 0) :
    (processAsr sp resp ts isLast).sent =
      some (if WHISPER_MAX_AUDIO_SEC < chunkDur sp then
        pySliceLast sp.audio_buffer
          (pyInt (WHISPER_MAX_AUDIO_SEC * (SAMPLING_RATE : ℚ))).toNat
        else sp.audio_buffer) := by
  unfold processAsr
  rw [if_neg h1, if_neg h2]
  cases isLast
  · rfl
  · rw [if_pos rfl]
    rw [apply_ite AsrStepResult.sent]
    dsimp only
    rw [ite_self]

/-- C1 amended.  The 30 s cap applies to the recognizer INPUT, not the stored
buffer: whenever `_process_asr` passes audio to the recognizer, that audio
holds at most `int(30.0 × SAMPLING_RATE) = 480000` samples.  The stored
`audio_buffer` itself can exceed `30 × SAMPLING_RATE` samples after
`_process_asr` returns — see the counterexample below. -/
theorem asr_input_capped_at_30s (sp : SpeechProcessor) (resp : ASRResponse) (ts : ℚ)
    (isLast : Bool) (a : List ℚ)
    (hsent : (processAsr sp resp ts isLast).sent = some a) :
    a.length ≤ 480000 := by
  have hmax : (pyInt (WHISPER_MAX_AUDIO_SEC * (SAMPLING_RATE : ℚ))).toNat = 480000 := by
    rw [show WHISPER_MAX_AUDIO_SEC * (SAMPLING_RATE : ℚ) = 480000 from by
      norm_num [WHISPER_MAX_AUDIO_SEC, SAMPLING_RATE]]
    decide
  have hbound : (if WHISPER_MAX_AUDIO_SEC < chunkDur sp then
      pySliceLast sp.audio_buffer
        (pyInt (WHISPER_MAX_AUDIO_SEC * (SAMPLING_RATE : ℚ))).toNat
      else sp.audio_buffer).length ≤ 480000 := by
    by_cases hc : WHISPER_MAX_AUDIO_SEC < chunkDur sp
    · rw [if_pos hc, hmax, pySliceLast, if_neg (by omega), List.length_drop]
      omega
    · rw [if_neg hc]
      rw [chunkDur, not_lt] at hc
      have h16 : (0 : ℚ) < (SAMPLING_RATE : ℚ) := by norm_num [SAMPLING_RATE]
      rw [div_le_iff₀ h16] at hc
      have hle : (sp.audio_buffer.length : ℚ) ≤ 480000 := by
        calc (sp.audio_buffer.length : ℚ)
            ≤ WHISPER_MAX_AUDIO_SEC * (SAMPLING_RATE : ℚ) := hc
          _ = 480000 := by norm_num [WHISPER_MAX_AUDIO_SEC, SAMPLING_RATE]
      exact_mod_cast hle
  by_cases h1 : chunkDur sp < sp.stride_sec ∧ isLast = false
  · have hn : (processAsr sp resp ts isLast).sent = none := by
      unfold processAsr
      rw [if_pos h1]
    rw [hn] at hsent
    exact absurd hsent (by simp)
  · by_cases h2 : chunkDur sp = 0
    · have hn : (processAsr sp resp ts isLast).sent = none := by
        unfold processAsr
        rw [if_neg h1, if_pos h2]
      rw [hn] at hsent
      exact absurd hsent (by simp)
    · rw [processAsr_sent_eq sp resp ts isLast h1 h2, Option.some.injEq] at hsent
      rw [← hsent]
      exact hbound

/-- A mid-utterance `_process_asr` call with an empty recognizer response and
no committed words leaves the audio buffer untouched: the word-boundary trim
finds nothing to cut. -/
lemma processAsr_untrimmed_audio (sp : SpeechProcessor) (ts : ℚ)
    (h1 : ¬ chunkDur sp < sp.stride_sec) (h2 : chunkDur sp ≠ 0)
    (htrim : sp.buffer_trimming_sec < (sp.audio_buffer.length : ℚ) / (SAMPLING_RATE : ℚ))
    (hcom : sp.committed_words = []) :
    (processAsr sp emptyResponse ts false).state.audio_buffer = sp.audio_buffer := by
  unfold processAsr
  rw [if_neg (fun hc => h1 hc.1), if_neg h2]
  simp only [show extractWords emptyResponse = [] from rfl]
  simp only [HypothesisBuffer.insert, shiftWords, List.map_nil, dropOldWords,
    List.filter_nil, insertCore, HypothesisBuffer.flush, flushWhile]
  simp only [ne_eq, not_true_eq_false, if_false, ite_self]
  rw [if_neg (show ¬(false = true) from by simp)]
  dsimp only
  rw [if_pos htrim]
  rw [trimBuffer_no_committed]
  exact hcom

/-- The state reached after 31 s of speech with an empty-response recognizer:
one 31 s speech packet at t = 0, then the t = 5 stride trigger. -/
def spStar : SpeechProcessor :=
  { SpeechProcessor.initState 5 1 1 with
    audio_buffer := List.replicate 496000 0,
    in_speech := true,
    last_speech_time := some 5,
    last_asr_time := some 0 }

/-- The first speech packet of the C1 run: speech start at t = 0, audio
appended, no stride yet. -/
lemma onVad_first_speech (a : List ℚ) :
    onVadResult (SpeechProcessor.initState 5 1 1) true a 0 emptyResponse =
      ({ SpeechProcessor.initState 5 1 1 with
         audio_buffer := a, in_speech := true,
         last_speech_time := some 0, last_asr_time := some 0 }, []) := by
  simp [onVadResult, onSpeechStart, SpeechProcessor.initState]
  norm_num
  rfl

/-- C1 counterexample.  Run: a 31 s speech packet at t = 0, then an empty
speech packet at t = 5 triggers the stride `_process_asr` (recognizer returns
the empty response, e.g. during an outage).  The call returns with the audio
buffer still holding 496000 samples — 31 s > 30 s: with no committed words the
trim has no word boundary to cut at, so `len(audio_buffer)/SAMPLING_RATE ≤ 30`
is violated after `_process_asr` returns. -/
theorem audio_buffer_exceeds_30s_after_asr :
    onVadResult (onVadResult (SpeechProcessor.initState 5 1 1) true
        (List.replicate 496000 0) 0 emptyResponse).1 true [] 5 emptyResponse =
      ((processAsr spStar emptyResponse 5 false).state,
        (processAsr spStar emptyResponse 5 false).commits) ∧
    ¬ (chunkDur (processAsr spStar emptyResponse 5 false).state ≤
        WHISPER_MAX_AUDIO_SEC) := by
  have hcd : chunkDur spStar = 31 := by
    rw [chunkDur, show spStar.audio_buffer = List.replicate 496000 0 from rfl,
      List.length_replicate]
    norm_num [SAMPLING_RATE]
  have h1 : ¬ chunkDur spStar < spStar.stride_sec := by
    rw [hcd, show spStar.stride_sec = 5 from rfl]
    norm_num
  have h2 : chunkDur spStar ≠ 0 := by rw [hcd]; norm_num
  have htrim : spStar.buffer_trimming_sec <
      (spStar.audio_buffer.length : ℚ) / (SAMPLING_RATE : ℚ) := by
    rw [show spStar.audio_buffer = List.replicate 496000 0 from rfl,
      List.length_replicate,
      show spStar.buffer_trimming_sec = WHISPER_MAX_AUDIO_SEC - 5 from rfl]
    norm_num [SAMPLING_RATE, WHISPER_MAX_AUDIO_SEC]
  have hstate : (processAsr spStar emptyResponse 5 false).state.audio_buffer =
      List.replicate 496000 0 :=
    (processAsr_untrimmed_audio spStar 5 h1 h2 htrim rfl).trans rfl
  constructor
  · rw [onVad_first_speech (List.replicate 496000 0)]
    simp only [onVadResult, List.append_nil]
    norm_num [SpeechProcessor.initState]
    exact ⟨rfl, rfl⟩
  · rw [chunkDur, hstate, List.length_replicate]
    norm_num [SAMPLING_RATE, WHISPER_MAX_AUDIO_SEC]

/-- A speaker with a single buffered sample. -/
def spShort : SpeechProcessor :=
  { SpeechProcessor.initState 5 1 1 with audio_buffer := [0] }

/-- C1 witness: on a short final chunk the recognizer receives the whole
one-sample buffer, within the 480000-sample cap. -/
theorem asr_input_capped_at_30s_witness :
    (processAsr spShort emptyResponse 7 true).sent = some [0] ∧
    ([(0 : ℚ)] : List ℚ).length ≤ 480000 := by
  have h1 : ¬ (chunkDur spShort < spShort.stride_sec ∧ true = false) := by simp
  have h2 : chunkDur spShort ≠ 0 := by
    norm_num [chunkDur, spShort, SpeechProcessor.initState, SAMPLING_RATE]
  have hsent : (processAsr spShort emptyResponse 7 true).sent = some [0] := by
    rw [processAsr_sent_eq spShort emptyResponse 7 true h1 h2]
    rw [if_neg (by norm_num [chunkDur, spShort, SpeechProcessor.initState,
      SAMPLING_RATE, WHISPER_MAX_AUDIO_SEC])]
    rfl
  exact ⟨hsent, asr_input_capped_at_30s spShort emptyResponse 7 true [0] hsent⟩
